import Mathlib

/-
Verification of the Graphique dashboard pipeline (src/app_mcp_http.py).

Shallow embedding conventions:
* Python strings are `List Char` (`Name` below); `nm` converts a Lean string
  literal to that representation.
* pandas Series/DataFrames are embedded as `Col`/`Table`: a column is either a
  column of strings (object dtype), of nullable rationals (numeric dtype, with
  `none` for NaN), or of nullable day-codes (datetime dtype, with `none` for
  NaT).  Python floats are modelled as rationals.
* Fallible Python code (functions that can raise) returns `Except Name _`,
  carrying the exception message.
* Unicode-dependent primitives (`unicodedata.normalize("NFKD", ·)`,
  `str.lower`, the `\w` and `\s` regex classes) are modelled on the character
  domain the application actually works over: ASCII plus the accented Latin
  letters that occur in French spreadsheet headers.  Characters outside that
  domain are left untouched by the accent table and are classified as
  non-word characters.
-/

namespace Graphique

/-- Python strings, as lists of characters. -/
abbrev Name := List Char

/-- Convenience conversion from a Lean string literal. -/
def nm (s : String) : Name := s.toList

/-! ### Character classes (regex `\s`, `\w`, `str.lower`) -/

/-- Python `\s` / `str.strip()` whitespace (ASCII part):
space, tab, newline, carriage return, vertical tab, form feed. -/
def pyIsSpace (c : Char) : Bool :=
  c.toNat = 32 || c.toNat = 9 || c.toNat = 10 || c.toNat = 13 ||
  c.toNat = 11 || c.toNat = 12

/-- Python `\w` word characters, on the modelled (ASCII) domain:
letters, digits and underscore. -/
def isWordChar (c : Char) : Bool :=
  (65 ≤ c.toNat && c.toNat ≤ 90) || (97 ≤ c.toNat && c.toNat ≤ 122) ||
  (48 ≤ c.toNat && c.toNat ≤ 57) || c.toNat = 95

/-- Python `str.lower` on the modelled domain: folds ASCII `A`-`Z`. -/
def pyLower (c : Char) : Char :=
  if 65 ≤ c.toNat && c.toNat ≤ 90 then Char.ofNat (c.toNat + 32) else c

/-! ### `strip_accents` (source lines 45-46)

`unicodedata.normalize("NFKD", s)` followed by dropping combining marks.
The NFKD decomposition table covers the accented Latin letters reachable in
this application's inputs; every other character decomposes to itself. -/

/-- Modelled NFKD decomposition table (accented Latin letters). -/
def nfkdTable : List (Char × List Char) :=
  [('à', ['a', '\u0300']), ('â', ['a', '\u0302']), ('ä', ['a', '\u0308']),
   ('ç', ['c', '\u0327']), ('è', ['e', '\u0300']), ('é', ['e', '\u0301']),
   ('ê', ['e', '\u0302']), ('ë', ['e', '\u0308']), ('î', ['i', '\u0302']),
   ('ï', ['i', '\u0308']), ('ô', ['o', '\u0302']), ('ö', ['o', '\u0308']),
   ('ù', ['u', '\u0300']), ('û', ['u', '\u0302']), ('ü', ['u', '\u0308']),
   ('À', ['A', '\u0300']), ('Â', ['A', '\u0302']), ('Ç', ['C', '\u0327']),
   ('È', ['E', '\u0300']), ('É', ['E', '\u0301']), ('Ê', ['E', '\u0302'])]

/-- NFKD decomposition of one character (identity outside the table). -/
def nfkd (c : Char) : List Char :=
  ((nfkdTable.find? (fun p => p.1 = c)).map (fun p => p.2)).getD [c]

/-- Combining marks (`unicodedata.combining(c) != 0`): the combining
diacritical block U+0300-U+036F. -/
def isCombining (c : Char) : Bool :=
  0x300 ≤ c.toNat && c.toNat ≤ 0x36F

/-- Function `strip_accents`: NFKD-decompose, drop combining marks. -/
def strip_accents (s : Name) : Name :=
  (s.map nfkd).flatten.filter (fun c => !isCombining c)

/-! ### `normalize_name` (source lines 48-53) -/

/-- Python `str.strip()` (both ends). -/
def pyStrip (s : Name) : Name :=
  ((s.dropWhile pyIsSpace).reverse.dropWhile pyIsSpace).reverse

/-- Model of `re.sub(r"[^\w]+", "_", s)`: each maximal run of non-word characters is
replaced by a single underscore.  The flag records whether we are inside such
a run (its replacement underscore already emitted). -/
def subNonWord : Bool → Name → Name
  | _, [] => []
  | inRun, c :: cs =>
    if isWordChar c then c :: subNonWord false cs
    else if inRun then subNonWord true cs
    else '_' :: subNonWord true cs

/-- Model of `re.sub(r"_+", "_", s)`: collapse each run of underscores to one. -/
def collapseUnd : Bool → Name → Name
  | _, [] => []
  | inRun, c :: cs =>
    if c = '_' then
      if inRun then collapseUnd true cs else '_' :: collapseUnd true cs
    else c :: collapseUnd false cs

/-- Python `str.strip("_")`. -/
def stripUnd (s : Name) : Name :=
  ((s.dropWhile (fun c => c == '_')).reverse.dropWhile (fun c => c == '_')).reverse

/-- Function `normalize_name`: lower-case, accent strip, non-word runs to `_`,
collapse `_` runs, strip boundary `_`. -/
def normalize_name (s : Name) : Name :=
  stripUnd (collapseUnd false (subNonWord false (pyStrip ((strip_accents s).map pyLower))))

/-! ### Canonical characters: what survives every stage of `normalize_name` -/

/-- Lower-case ASCII letters, ASCII digits, and underscore. -/
def isCanon (c : Char) : Bool :=
  (97 ≤ c.toNat && c.toNat ≤ 122) || (48 ≤ c.toNat && c.toNat ≤ 57) ||
  c.toNat = 95

theorem nfkdTable_keys_high : ∀ p ∈ nfkdTable, 0xC0 ≤ p.1.toNat := by decide

theorem isCanon_toNat {c : Char} (h : isCanon c = true) :
    48 ≤ c.toNat ∧ c.toNat ≤ 122 := by
  simp only [isCanon, Bool.or_eq_true, Bool.and_eq_true, decide_eq_true_eq] at h
  omega

theorem nfkd_canon {c : Char} (h : isCanon c = true) : nfkd c = [c] := by
  have hfind : nfkdTable.find? (fun p => p.1 = c) = none := by
    rw [List.find?_eq_none]
    intro p hp
    have h1 := nfkdTable_keys_high p hp
    have h2 := (isCanon_toNat h).2
    simp only [decide_eq_true_eq]
    intro he
    rw [he] at h1
    omega
  simp [nfkd, hfind]

theorem isCanon_not_combining {c : Char} (h : isCanon c = true) :
    isCombining c = false := by
  have := (isCanon_toNat h).2
  simp only [isCombining, Bool.and_eq_false_iff, decide_eq_false_iff_not]
  omega

theorem strip_accents_cons (c : Char) (cs : Name) :
    strip_accents (c :: cs) =
      (nfkd c).filter (fun d => !isCombining d) ++ strip_accents cs := by
  simp [strip_accents]

theorem strip_accents_canon {l : Name} (h : ∀ c ∈ l, isCanon c = true) :
    strip_accents l = l := by
  induction l with
  | nil => rfl
  | cons c cs ih =>
    rw [strip_accents_cons, nfkd_canon (h c (List.mem_cons_self ..)),
      ih (fun d hd => h d (List.mem_cons_of_mem _ hd))]
    simp [isCanon_not_combining (h c (List.mem_cons_self ..))]

theorem pyLower_canon {c : Char} (h : isCanon c = true) : pyLower c = c := by
  have h2 := isCanon_toNat h
  simp only [isCanon, Bool.or_eq_true, Bool.and_eq_true, decide_eq_true_eq] at h
  unfold pyLower
  split
  · rename_i hup
    simp only [Bool.and_eq_true, decide_eq_true_eq] at hup
    omega
  · rfl

theorem pyLower_upper {c : Char} (h65 : 65 ≤ c.toNat) (h90 : c.toNat ≤ 90) :
    (pyLower c).toNat = c.toNat + 32 := by
  unfold pyLower
  split
  · unfold Char.ofNat
    split
    · rfl
    · rename_i hv
      exact absurd (Or.inl (by omega)) hv
  · rename_i hup
    simp only [Bool.and_eq_true, decide_eq_true_eq, not_and] at hup
    omega

theorem pyLower_not_upper {c : Char} (h : ¬(65 ≤ c.toNat ∧ c.toNat ≤ 90)) :
    pyLower c = c := by
  unfold pyLower
  split
  · rename_i hup
    simp only [Bool.and_eq_true, decide_eq_true_eq] at hup
    exact absurd hup h
  · rfl

theorem wordChar_pyLower_canon {d : Char} (h : isWordChar (pyLower d) = true) :
    isCanon (pyLower d) = true := by
  by_cases hup : 65 ≤ d.toNat ∧ d.toNat ≤ 90
  · have := pyLower_upper hup.1 hup.2
    simp only [isCanon, Bool.or_eq_true, Bool.and_eq_true, decide_eq_true_eq]
    omega
  · rw [pyLower_not_upper hup] at h ⊢
    simp only [isWordChar, Bool.or_eq_true, Bool.and_eq_true,
      decide_eq_true_eq] at h
    simp only [isCanon, Bool.or_eq_true, Bool.and_eq_true, decide_eq_true_eq]
    omega

theorem isCanon_isWordChar {c : Char} (h : isCanon c = true) :
    isWordChar c = true := by
  simp only [isCanon, Bool.or_eq_true, Bool.and_eq_true, decide_eq_true_eq] at h
  simp only [isWordChar, Bool.or_eq_true, Bool.and_eq_true, decide_eq_true_eq]
  omega

theorem isCanon_not_space {c : Char} (h : isCanon c = true) :
    pyIsSpace c = false := by
  have := (isCanon_toNat h).1
  simp only [pyIsSpace, Bool.or_eq_false_iff, decide_eq_false_iff_not]
  omega

/-! ### Identity lemmas for the rewriting stages on canonical strings -/

theorem dropWhile_eq_self_of {p : Char → Bool} {l : Name}
    (h : ∀ c ∈ l, p c = false) : l.dropWhile p = l := by
  cases l with
  | nil => rfl
  | cons c cs =>
    exact List.dropWhile_cons_of_neg (by simp [h c (List.mem_cons_self ..)])

theorem pyStrip_eq_self_of {l : Name} (h : ∀ c ∈ l, pyIsSpace c = false) :
    pyStrip l = l := by
  unfold pyStrip
  rw [dropWhile_eq_self_of h,
    dropWhile_eq_self_of (fun c hc => h c (List.mem_reverse.mp hc)),
    List.reverse_reverse]

theorem subNonWord_cons_word {a : Char} (ha : isWordChar a = true) (b : Bool)
    (as : Name) : subNonWord b (a :: as) = a :: subNonWord false as := by
  simp [subNonWord, ha]

theorem subNonWord_cons_nonword_true {a : Char} (ha : isWordChar a = false)
    (as : Name) : subNonWord true (a :: as) = subNonWord true as := by
  simp [subNonWord, ha]

theorem subNonWord_cons_nonword_false {a : Char} (ha : isWordChar a = false)
    (as : Name) : subNonWord false (a :: as) = '_' :: subNonWord true as := by
  simp [subNonWord, ha]

theorem subNonWord_eq_self {l : Name} (h : ∀ c ∈ l, isWordChar c = true) :
    ∀ b, subNonWord b l = l := by
  induction l with
  | nil => intro b; rfl
  | cons c cs ih =>
    intro b
    rw [subNonWord_cons_word (h c (List.mem_cons_self ..)),
      ih (fun d hd => h d (List.mem_cons_of_mem _ hd))]

theorem collapseUnd_true_underscore (as : Name) :
    collapseUnd true ('_' :: as) = collapseUnd true as := by
  simp [collapseUnd]

theorem collapseUnd_false_underscore (as : Name) :
    collapseUnd false ('_' :: as) = '_' :: collapseUnd true as := by
  simp [collapseUnd]

theorem collapseUnd_cons_ne {a : Char} (ha : ¬a = '_') (b : Bool) (as : Name) :
    collapseUnd b (a :: as) = a :: collapseUnd false as := by
  simp [collapseUnd, ha]

theorem collapseUnd_true_head {l : Name} :
    ∀ c, (collapseUnd true l).head? = some c → c ≠ '_' := by
  induction l with
  | nil => intro c hc; simp [collapseUnd] at hc
  | cons a as ih =>
    intro c hc
    by_cases ha : a = '_'
    · subst ha
      rw [collapseUnd_true_underscore] at hc
      exact ih c hc
    · rw [collapseUnd_cons_ne ha] at hc
      simp only [List.head?_cons, Option.some.injEq] at hc
      exact hc ▸ ha

/-- No two adjacent underscores. -/
def UndSep (a b : Char) : Prop := ¬(a = '_' ∧ b = '_')

/-- The string has no `__` substring. -/
def NoUU (l : Name) : Prop := l.Chain' UndSep

theorem noUU_collapseUnd : ∀ (l : Name) (b : Bool), NoUU (collapseUnd b l) := by
  intro l
  induction l with
  | nil => intro b; exact List.chain'_nil
  | cons a as ih =>
    intro b
    by_cases ha : a = '_'
    · subst ha
      cases b with
      | true => rw [collapseUnd_true_underscore]; exact ih true
      | false =>
        rw [collapseUnd_false_underscore]
        rw [NoUU, List.chain'_cons']
        refine ⟨fun y hy => ?_, ih true⟩
        exact fun hp => collapseUnd_true_head y hy hp.2
    · rw [collapseUnd_cons_ne ha]
      rw [NoUU, List.chain'_cons']
      refine ⟨fun y hy => fun hp => ha hp.1, ih false⟩

theorem collapseUnd_eq_self :
    ∀ (l : Name), NoUU l →
      collapseUnd false l = l ∧
      (l.head? ≠ some '_' → collapseUnd true l = l) := by
  intro l
  induction l with
  | nil => intro _; exact ⟨rfl, fun _ => rfl⟩
  | cons a as ih =>
    intro h
    have htail : NoUU as := h.tail
    obtain ⟨ih1, ih2⟩ := ih htail
    by_cases ha : a = '_'
    · subst ha
      have hh : as.head? ≠ some '_' := by
        intro hhead
        rw [NoUU, List.chain'_cons'] at h
        exact h.1 '_' hhead ⟨rfl, rfl⟩
      constructor
      · rw [collapseUnd_false_underscore, ih2 hh]
      · intro hcontra
        exact absurd rfl hcontra
    · constructor
      · rw [collapseUnd_cons_ne ha, ih1]
      · intro _
        rw [collapseUnd_cons_ne ha, ih1]

theorem noUU_dropWhile {p : Char → Bool} :
    ∀ {l : Name}, NoUU l → NoUU (l.dropWhile p) := by
  intro l
  induction l with
  | nil => intro h; exact h
  | cons a as ih =>
    intro h
    rw [List.dropWhile_cons]
    split
    · exact ih h.tail
    · exact h

theorem noUU_reverse {l : Name} (h : NoUU l) : NoUU l.reverse := by
  rw [NoUU, List.chain'_reverse]
  exact h.imp (fun a b hab => fun hp => hab ⟨hp.2, hp.1⟩)

theorem noUU_stripUnd {l : Name} (h : NoUU l) : NoUU (stripUnd l) :=
  noUU_reverse (noUU_dropWhile (noUU_reverse (noUU_dropWhile h)))

theorem head?_dropWhile_ne {p : Char → Bool} {l : Name} {c : Char}
    (h : (l.dropWhile p).head? = some c) : p c = false := by
  have hm := List.head?_dropWhile_not p l
  rw [h] at hm
  exact hm

theorem stripUnd_head? {l : Name} {c : Char}
    (h : (stripUnd l).head? = some c) : c ≠ '_' := by
  unfold stripUnd at h
  rw [List.head?_reverse] at h
  obtain ⟨t, ht⟩ := List.dropWhile_suffix
    (l := (l.dropWhile (fun c => c == '_')).reverse) (fun c => c == '_')
  have hw : (l.dropWhile (fun c => c == '_')).reverse.getLast? = some c := by
    rw [← ht, List.getLast?_append, h]
    rfl
  rw [List.getLast?_reverse] at hw
  have := head?_dropWhile_ne hw
  simpa using this

theorem stripUnd_getLast? {l : Name} {c : Char}
    (h : (stripUnd l).getLast? = some c) : c ≠ '_' := by
  unfold stripUnd at h
  rw [List.getLast?_reverse] at h
  have := head?_dropWhile_ne h
  simpa using this

theorem stripUnd_eq_self {l : Name}
    (h1 : ∀ c, l.head? = some c → c ≠ '_')
    (h2 : ∀ c, l.getLast? = some c → c ≠ '_') : stripUnd l = l := by
  unfold stripUnd
  have e1 : l.dropWhile (fun c => c == '_') = l := by
    cases l with
    | nil => rfl
    | cons a as =>
      exact List.dropWhile_cons_of_neg
        (by simp only [beq_iff_eq]; exact h1 a rfl)
  rw [e1]
  have e2 : l.reverse.dropWhile (fun c => c == '_') = l.reverse := by
    rcases hl : l.reverse with _ | ⟨a, as⟩
    · rfl
    · have : l.getLast? = some a := by
        rw [← List.head?_reverse, hl, List.head?_cons]
      exact List.dropWhile_cons_of_neg
        (by simp only [beq_iff_eq]; exact h2 a this)
  rw [e2, List.reverse_reverse]

/-! ### Characters of the output of `normalize_name` are canonical -/

theorem mem_subNonWord {c : Char} :
    ∀ {b : Bool} {l : Name}, c ∈ subNonWord b l →
      c = '_' ∨ (c ∈ l ∧ isWordChar c = true) := by
  intro b l
  induction l generalizing b with
  | nil => intro h; exact absurd h (by simp [subNonWord])
  | cons a as ih =>
    intro h
    rcases ha : isWordChar a with _ | _
    · cases b with
      | true =>
        rw [subNonWord_cons_nonword_true ha] at h
        rcases ih h with h1 | ⟨h1, h2⟩
        · exact Or.inl h1
        · exact Or.inr ⟨List.mem_cons_of_mem _ h1, h2⟩
      | false =>
        rw [subNonWord_cons_nonword_false ha] at h
        rcases List.mem_cons.mp h with h1 | h1
        · exact Or.inl h1
        · rcases ih h1 with h2 | ⟨h2, h3⟩
          · exact Or.inl h2
          · exact Or.inr ⟨List.mem_cons_of_mem _ h2, h3⟩
    · rw [subNonWord_cons_word ha] at h
      rcases List.mem_cons.mp h with h1 | h1
      · exact Or.inr ⟨h1 ▸ List.mem_cons_self .., h1 ▸ ha⟩
      · rcases ih h1 with h2 | ⟨h2, h3⟩
        · exact Or.inl h2
        · exact Or.inr ⟨List.mem_cons_of_mem _ h2, h3⟩

theorem mem_collapseUnd {c : Char} :
    ∀ {b : Bool} {l : Name}, c ∈ collapseUnd b l → c ∈ l := by
  intro b l
  induction l generalizing b with
  | nil => intro h; exact absurd h (by simp [collapseUnd])
  | cons a as ih =>
    intro h
    by_cases ha : a = '_'
    · subst ha
      cases b with
      | true =>
        rw [collapseUnd_true_underscore] at h
        exact List.mem_cons_of_mem _ (ih h)
      | false =>
        rw [collapseUnd_false_underscore] at h
        rcases List.mem_cons.mp h with h1 | h1
        · exact h1 ▸ List.mem_cons_self ..
        · exact List.mem_cons_of_mem _ (ih h1)
    · rw [collapseUnd_cons_ne ha] at h
      rcases List.mem_cons.mp h with h1 | h1
      · exact h1 ▸ List.mem_cons_self ..
      · exact List.mem_cons_of_mem _ (ih h1)

theorem mem_dropWhile {c : Char} {p : Char → Bool} {l : Name}
    (h : c ∈ l.dropWhile p) : c ∈ l :=
  (List.dropWhile_suffix p).subset h

theorem mem_stripUnd {c : Char} {l : Name} (h : c ∈ stripUnd l) : c ∈ l := by
  unfold stripUnd at h
  rw [List.mem_reverse] at h
  have h1 := mem_dropWhile h
  rw [List.mem_reverse] at h1
  exact mem_dropWhile h1

theorem mem_pyStrip {c : Char} {l : Name} (h : c ∈ pyStrip l) : c ∈ l := by
  unfold pyStrip at h
  rw [List.mem_reverse] at h
  have h1 := mem_dropWhile h
  rw [List.mem_reverse] at h1
  exact mem_dropWhile h1

theorem normalize_name_canon {s : Name} :
    ∀ c ∈ normalize_name s, isCanon c = true := by
  intro c hc
  unfold normalize_name at hc
  have h1 := mem_collapseUnd (mem_stripUnd hc)
  rcases mem_subNonWord h1 with rfl | ⟨h3, hw⟩
  · decide
  · rcases List.mem_map.mp (mem_pyStrip h3) with ⟨d, _, rfl⟩
    exact wordChar_pyLower_canon hw

theorem normalize_name_noUU (s : Name) : NoUU (normalize_name s) := by
  unfold normalize_name
  exact noUU_stripUnd (noUU_collapseUnd _ _)

theorem normalize_name_head {s : Name} {c : Char}
    (h : (normalize_name s).head? = some c) : c ≠ '_' := by
  unfold normalize_name at h
  exact stripUnd_head? h

theorem normalize_name_last {s : Name} {c : Char}
    (h : (normalize_name s).getLast? = some c) : c ≠ '_' := by
  unfold normalize_name at h
  exact stripUnd_getLast? h

theorem map_pyLower_canon {l : Name} (h : ∀ c ∈ l, isCanon c = true) :
    l.map pyLower = l := by
  induction l with
  | nil => rfl
  | cons c cs ih =>
    rw [List.map_cons, pyLower_canon (h c (List.mem_cons_self ..)),
      ih (fun d hd => h d (List.mem_cons_of_mem _ hd))]

/-- Claim C4: Column-name normalization is deterministic and total (it is a
total function of its input) and idempotent: normalizing twice equals
normalizing once, for every input string. -/
theorem normalize_name_idem (x : Name) :
    normalize_name (normalize_name x) = normalize_name x := by
  have hcanon : ∀ c ∈ normalize_name x, isCanon c = true := normalize_name_canon
  have hword : ∀ c ∈ normalize_name x, isWordChar c = true :=
    fun c hc => isCanon_isWordChar (hcanon c hc)
  have e1 : strip_accents (normalize_name x) = normalize_name x :=
    strip_accents_canon hcanon
  conv_lhs => rw [normalize_name, e1, map_pyLower_canon hcanon,
    pyStrip_eq_self_of (fun c hc => isCanon_not_space (hcanon c hc)),
    subNonWord_eq_self hword false,
    (collapseUnd_eq_self _ (normalize_name_noUU x)).1,
    stripUnd_eq_self (fun c hc => normalize_name_head hc)
      (fun c hc => normalize_name_last hc)]

/-- Claim C5 counterexample: The three spec headers do not all normalize to one
identifier: `"Variation_%"` normalizes to `"variation"` while
`"variation_pct"` normalizes to `"variation_pct"`. -/
theorem normalize_name_not_all_collapse :
    normalize_name (nm "Variation_%") = nm "variation" ∧
    normalize_name (nm "variation_pct") = nm "variation_pct" ∧
    normalize_name (nm "Variation_%") ≠ normalize_name (nm "variation_pct") := by
  refine ⟨by decide, by decide, by decide⟩

/-- Claim C5 amended: Normalization is case- and accent-insensitive:
`"Variation_%"` and `"VARIATION %"` both normalize to `"variation"`, and
accented variants collapse with their unaccented forms; but
`"variation_pct"` normalizes to the distinct identifier `"variation_pct"`. -/
theorem normalize_name_case_accent_insensitive :
    normalize_name (nm "Variation_%") = nm "variation" ∧
    normalize_name (nm "VARIATION %") = nm "variation" ∧
    normalize_name (nm "variation_pct") = nm "variation_pct" ∧
    normalize_name (nm "Variation journalière") =
      normalize_name (nm "VARIATION JOURNALIÈRE") := by
  refine ⟨by decide, by decide, by decide, by decide⟩

/-! ### Columns and tables

A pandas Series is embedded as a `Col`: an object-dtype column of strings, a
numeric column of nullable rationals (`none` = NaN), or a datetime column of
nullable day codes (`none` = NaT).  A DataFrame is a list of named columns.
Mixed object columns (strings and floats in one column) are outside the
model; every claim works over homogeneous columns. -/

inductive Col where
  | strs (vals : List Name)
  | nums (vals : List (Option ℚ))
  | dates (vals : List (Option Nat))
deriving DecidableEq

abbrev Table := List (Name × Col)

instance {ε α : Type} [DecidableEq ε] [DecidableEq α] :
    DecidableEq (Except ε α) := fun a b =>
  match a, b with
  | Except.error e, Except.error f =>
    if h : e = f then isTrue (by rw [h]) else isFalse (by simp [h])
  | Except.ok x, Except.ok y =>
    if h : x = y then isTrue (by rw [h]) else isFalse (by simp [h])
  | Except.error _, Except.ok _ => isFalse (by simp)
  | Except.ok _, Except.error _ => isFalse (by simp)

/-- Column labels, in table order (`df.columns`). -/
def colNames (t : Table) : List Name := t.map Prod.fst

/-- Lookup `df[n]`: first column with the given label.  (The app never builds
duplicate labels, and a missing label is never dereferenced by the code
paths modelled here, so the default is unreachable.) -/
def getCol (t : Table) (n : Name) : Col :=
  match t.find? (fun p => p.1 == n) with
  | some p => p.2
  | none => Col.strs []

/-! ### Numeric coercion: `to_numeric_safe` (source lines 63-70) -/

/-- Digit run to value. -/
def digitsVal (l : Name) : Nat := l.foldl (fun a c => 10 * a + (c.toNat - 48)) 0

def isDigitChar (c : Char) : Bool := 48 ≤ c.toNat && c.toNat ≤ 57

/-- Parse one cleaned cell as a number, the way `pd.to_numeric` parses a
string: optional sign, then a decimal literal `digits`, `digits.digits`,
`.digits` or `digits.`; the value `±(ip.fp)` is assembled as the single
rational `±(ip·10^k + fp) / 10^k`.  Exponents and the `nan`/`inf` literals
are outside the modelled subset. -/
def parseNum? (l : Name) : Option ℚ :=
  let sgn : Bool × Name :=
    match l with
    | '-' :: t => (true, t)
    | '+' :: t => (false, t)
    | t => (false, t)
  let ip := sgn.2.takeWhile isDigitChar
  let rest := sgn.2.drop ip.length
  let mk : Nat → Nat → Option ℚ := fun n d =>
    some (mkRat (if sgn.1 then -(n : ℤ) else (n : ℤ)) d)
  match rest with
  | [] => if ip.isEmpty then none else mk (digitsVal ip) 1
  | '.' :: fp =>
    if fp.all isDigitChar && !(ip.isEmpty && fp.isEmpty) then
      mk (digitsVal ip * 10 ^ fp.length + digitsVal fp) (10 ^ fp.length)
    else none
  | _ => none

/-- The cleaning pipeline of `to_numeric_safe`: remove every whitespace
character (`.str.replace(r"\s", "", regex=True)`), turn every comma into a
period, remove every percent sign. -/
def cleanNumStr (l : Name) : Name :=
  ((l.filter (fun c => !pyIsSpace c)).map
    (fun c => if c = ',' then '.' else c)).filter (fun c => !(c == '%'))

/-- Function `to_numeric_safe`: on an object column, clean every cell and call
`pd.to_numeric(s2, errors="ignore")` — if every cell parses the column
becomes numeric, otherwise the *whole cleaned column* is returned unchanged
(`errors="ignore"` semantics).  On an already numeric column it is the
identity; datetime columns are not convertible and are returned unchanged. -/
def to_numeric_safe (c : Col) : Col :=
  match c with
  | Col.strs ls =>
    let cleaned := ls.map cleanNumStr
    if cleaned.all (fun l => (parseNum? l).isSome) then
      Col.nums (cleaned.map parseNum?)
    else Col.strs cleaned
  | Col.nums vs => Col.nums vs
  | Col.dates vs => Col.dates vs

/-! ### Date coercion: `to_datetime_safe` (source lines 60-61) -/

/-- Parse an ISO `YYYY-MM-DD` cell to a day code (the modelled subset of the
many formats `pd.to_datetime` accepts); anything else is NaT (`none`,
`errors="coerce"`). -/
def parseDate? : Name → Option Nat
  | [y1, y2, y3, y4, '-', m1, m2, '-', d1, d2] =>
    if [y1, y2, y3, y4].all isDigitChar && [m1, m2].all isDigitChar &&
        [d1, d2].all isDigitChar then
      some (digitsVal [y1, y2, y3, y4] * 10000 + digitsVal [m1, m2] * 100 +
        digitsVal [d1, d2])
    else none
  | _ => none

/-- Function `to_datetime_safe`.  Numeric input is interpreted as an epoch offset by
pandas; that path is modelled coarsely (floor) and is unused by the claims. -/
def to_datetime_safe (c : Col) : Col :=
  match c with
  | Col.strs ls => Col.dates (ls.map parseDate?)
  | Col.dates vs => Col.dates vs
  | Col.nums vs => Col.dates (vs.map (fun o => o.map (fun q => q.floor.toNat)))

/-! ### Table-level normalization (source lines 55-58, 72-79) -/

/-- Function `normalize_columns`: normalize every column label. -/
def normalize_columns (t : Table) : Table :=
  t.map (fun p => (normalize_name p.1, p.2))

/-- Function `normalize_types`: the `date` column to datetimes, all others numeric. -/
def normalize_types (t : Table) : Table :=
  t.map (fun p =>
    if p.1 = nm "date" then (p.1, to_datetime_safe p.2)
    else (p.1, to_numeric_safe p.2))

/-! ### Column resolution: `find_column` (source lines 81-93) -/

/-- Python `a in b` on strings: substring containment. -/
def isSubstr (pat txt : Name) : Bool :=
  txt.tails.any (fun t => pat.isPrefixOf t)

/-- Function `find_column`: first candidate whose normalization is a column label;
else first column (in table order) containing a normalized candidate as a
substring; else `None`. -/
def find_column (t : Table) (candidates : List Name) : Option Name :=
  match candidates.find? (fun c => (colNames t).contains (normalize_name c)) with
  | some c => some (normalize_name c)
  | none =>
    (colNames t).find? (fun ncol =>
      candidates.any (fun c => isSubstr (normalize_name c) ncol))

/-! ### Per-sheet loaders (source lines 112-160) -/

def dateCandidates : List Name := [nm "date", nm "jour", nm "datetime"]

def varCandidates : List Name :=
  [nm "variation_pct", nm "variation", nm "variation_journaliere",
   nm "rendement", nm "return"]

def closeCandidates : List Name :=
  [nm "close", nm "cours", nm "price", nm "close_price"]

def mm50Candidates : List Name := [nm "mm50", nm "ma50", nm "sma50"]

def mm200Candidates : List Name := [nm "mm200", nm "ma200", nm "sma200"]

def courtCandidates : List Name :=
  [nm "court", nm "rsi_court", nm "rsi_short", nm "rsi7", nm "rsi_7"]

def moyenCandidates : List Name :=
  [nm "moyen", nm "rsi_moyen", nm "rsi14", nm "rsi_14"]

def longCandidates : List Name :=
  [nm "long_terme", nm "long", nm "rsi_long", nm "rsi28", nm "rsi_28",
   nm "rsi_long_terme", nm "longterme"]

/-- Model of `"date" if "date" in d.columns else find_column(d, [...])`. -/
def resolve_date (d : Table) : Option Name :=
  if (colNames d).contains (nm "date") then some (nm "date")
  else find_column d dateCandidates

/-- The message naming the missing columns, joined with commas. -/
def missingMsg (miss : List Name) : Name :=
  nm "Colonnes manquantes/équivalents non trouvés: " ++
    (miss.intersperse (nm ", ")).flatten ++ nm "."

def outlierMsg : Name :=
  nm "Outliers détectés (> ±50% jour/jour) — non filtrés (conformément aux spécifications)."

/-- Model of `Series.abs()` on one value (kept executable: `|·|` on ℚ is built from
irreducible field operations). -/
def ratAbs (q : ℚ) : ℚ := if q < 0 then -q else q

theorem ratAbs_eq_abs (q : ℚ) : ratAbs q = |q| := by
  unfold ratAbs
  split
  · rename_i h; rw [abs_of_neg h]
  · rename_i h; rw [abs_of_nonneg (le_of_not_lt h)]

/-- Model of `(out["variation_pct"].abs() > 0.5).any()`: NaN compares false; calling
`.abs()` on a non-numeric column raises a `TypeError`. -/
def outlierCheck (c : Col) : Except Name Bool :=
  match c with
  | Col.nums vs =>
    Except.ok (vs.any (fun o => o.elim false (fun q => mkRat 1 2 < ratAbs q)))
  | Col.strs _ => Except.error (nm "TypeError: bad operand type for abs")
  | Col.dates _ => Except.error (nm "TypeError: bad operand type for abs")

/-- Function `load_variation` (source lines 112-127): normalize, resolve the date and
variation columns, raise naming the missing logical columns, select+rename,
and append the (non-filtering) outlier advisory. -/
def load_variation (t : Table) : Except Name (Table × List Name) :=
  let d := normalize_types (normalize_columns t)
  match resolve_date d, find_column d varCandidates with
  | some cd, some cv =>
    let out := [(nm "date", getCol d cd), (nm "variation_pct", getCol d cv)]
    match outlierCheck (getCol out (nm "variation_pct")) with
    | Except.error e => Except.error e
    | Except.ok b => Except.ok (out, if b then [outlierMsg] else [])
  | cd, cv =>
    Except.error (missingMsg
      ((if cd.isNone then [nm "date"] else []) ++
       (if cv.isNone then [nm "variation_pct"] else [])))

/-- Function `load_mm` (source lines 129-144). -/
def load_mm (t : Table) : Except Name (Table × List Name) :=
  let d := normalize_types (normalize_columns t)
  match resolve_date d, find_column d closeCandidates,
      find_column d mm50Candidates, find_column d mm200Candidates with
  | some cd, some cc, some c50, some c200 =>
    Except.ok ([(nm "date", getCol d cd), (nm "close", getCol d cc),
      (nm "mm50", getCol d c50), (nm "mm200", getCol d c200)], [])
  | cd, cc, c50, c200 =>
    Except.error (missingMsg
      ((if cd.isNone then [nm "date"] else []) ++
       (if cc.isNone then [nm "close"] else []) ++
       (if c50.isNone then [nm "mm50"] else []) ++
       (if c200.isNone then [nm "mm200"] else [])))

def rsiErrMsg : Name := nm "Colonnes minimales introuvables pour RSI (date + close)."

/-- Function `load_rsi` (source lines 146-160): date and close are required (fixed
message), the three horizon columns are optional and appended only when
resolved. -/
def load_rsi (t : Table) : Except Name (Table × List Name) :=
  let d := normalize_types (normalize_columns t)
  match resolve_date d, find_column d closeCandidates with
  | some cd, some cc =>
    let base := [(nm "date", getCol d cd), (nm "close", getCol d cc)]
    let withCourt := base ++
      (match find_column d courtCandidates with
       | some c => [(nm "court", getCol d c)] | none => [])
    let withMoyen := withCourt ++
      (match find_column d moyenCandidates with
       | some c => [(nm "moyen", getCol d c)] | none => [])
    let withLong := withMoyen ++
      (match find_column d longCandidates with
       | some c => [(nm "long_terme", getCol d c)] | none => [])
    Except.ok (withLong, [])
  | _, _ => Except.error rsiErrMsg

/-! ### C1: returns-scale handling of the variation loader -/

/-- Claim C1 counterexample: The percent column `["1%", "2%", "-0.5%"]` loads
as `[1, 2, -0.5]` — the percent sign is stripped by the generic coercion but
the value is *not* divided by 100, and no 95th-percentile rescale of the
column exists — so the claimed output `[0.01, 0.02, -0.005]` is wrong (the
parsed values even trigger the ±50% outlier advisory). -/
theorem load_variation_no_scaling_cex :
    load_variation [(nm "date", Col.dates [some 1, some 2, some 3]),
        (nm "variation_pct", Col.strs [nm "1%", nm "2%", nm "-0.5%"])] =
      Except.ok ([(nm "date", Col.dates [some 1, some 2, some 3]),
        (nm "variation_pct", Col.nums [some 1, some 2, some (mkRat (-1) 2)])],
        [outlierMsg]) ∧
    Col.nums [some 1, some 2, some (mkRat (-1) 2)] ≠
      Col.nums [some (mkRat 1 100), some (mkRat 2 100), some (mkRat (-5) 1000)] := by
  refine ⟨by decide, by decide⟩

/-- Claim C1 amended: The variation-table load applies no returns-scale
correction at all: percent signs are stripped during numeric coercion
without dividing by 100, and there is no percentile-based column rescale.
`["1%", "2%", "-0.5%"]` loads as `[1, 2, -0.5]` (triggering the outlier
advisory), the numeric column `[1.0, 2.0, -0.5]` loads unchanged (also with
the advisory), and the already-decimal column `[0.01, 0.02, -0.005]` loads
unchanged with no advisory. -/
theorem load_variation_no_scale_correction :
    load_variation [(nm "date", Col.dates [some 1, some 2, some 3]),
        (nm "variation_pct", Col.strs [nm "1%", nm "2%", nm "-0.5%"])] =
      Except.ok ([(nm "date", Col.dates [some 1, some 2, some 3]),
        (nm "variation_pct", Col.nums [some 1, some 2, some (mkRat (-1) 2)])],
        [outlierMsg]) ∧
    load_variation [(nm "date", Col.dates [some 1, some 2, some 3]),
        (nm "variation_pct", Col.nums [some 1, some 2, some (mkRat (-1) 2)])] =
      Except.ok ([(nm "date", Col.dates [some 1, some 2, some 3]),
        (nm "variation_pct", Col.nums [some 1, some 2, some (mkRat (-1) 2)])],
        [outlierMsg]) ∧
    load_variation [(nm "date", Col.dates [some 1, some 2, some 3]),
        (nm "variation_pct",
          Col.nums [some (mkRat 1 100), some (mkRat 2 100), some (mkRat (-5) 1000)])] =
      Except.ok ([(nm "date", Col.dates [some 1, some 2, some 3]),
        (nm "variation_pct",
          Col.nums [some (mkRat 1 100), some (mkRat 2 100), some (mkRat (-5) 1000)])],
        []) := by
  refine ⟨by decide, by decide, by decide⟩

/-! ### C2: numeric coercion -/

/-- Claim C2 counterexample: A column in which one value fails to parse is
returned whole as (cleaned) strings — the failing value does *not* become
missing (`pd.to_numeric(..., errors="ignore")` semantics). -/
theorem to_numeric_safe_not_missing_cex :
    to_numeric_safe (Col.strs [nm "1", nm "abc"]) = Col.strs [nm "1", nm "abc"] ∧
    to_numeric_safe (Col.strs [nm "1", nm "abc"]) ≠ Col.nums [some 1, none] := by
  refine ⟨by decide, by decide⟩

/-- Claim C2 amended: Numeric coercion removes all whitespace, converts commas
to periods, strips percent signs, then parses; `"12,34"` → 12.34,
`"1 234,5"` → 1234.5, `"5%"` → 5.  If every cleaned value parses the column
becomes numeric (the elementwise parses); if any value fails to parse the
*entire* column is returned as cleaned strings — no value becomes missing —
and the coercion never raises (it is a total function). -/
theorem to_numeric_safe_spec :
    (to_numeric_safe (Col.strs [nm "12,34"]) = Col.nums [some (mkRat 1234 100)] ∧
     to_numeric_safe (Col.strs [nm "1 234,5"]) = Col.nums [some (mkRat 12345 10)] ∧
     to_numeric_safe (Col.strs [nm "5%"]) = Col.nums [some 5]) ∧
    (∀ ls : List Name, (∀ l ∈ ls, (parseNum? (cleanNumStr l)).isSome = true) →
      to_numeric_safe (Col.strs ls) =
        Col.nums (ls.map (fun l => parseNum? (cleanNumStr l)))) ∧
    (∀ (ls : List Name) (l : Name), l ∈ ls → parseNum? (cleanNumStr l) = none →
      to_numeric_safe (Col.strs ls) = Col.strs (ls.map cleanNumStr)) ∧
    (∀ (ls : List Name) (vs : List (Option ℚ)),
      to_numeric_safe (Col.strs ls) = Col.nums vs → ∀ v ∈ vs, v.isSome = true) := by
  refine ⟨⟨by decide, by decide, by decide⟩, ?_, ?_, ?_⟩
  · intro ls h
    have hall : (ls.map cleanNumStr).all (fun l => (parseNum? l).isSome) = true := by
      rw [List.all_eq_true]
      intro x hx
      rcases List.mem_map.mp hx with ⟨l, hl, rfl⟩
      exact h l hl
    simp only [to_numeric_safe, hall, if_true, List.map_map]
    rfl
  · intro ls l hl hnone
    have hall : (ls.map cleanNumStr).all (fun l => (parseNum? l).isSome) = false := by
      rw [List.all_eq_false]
      exact ⟨cleanNumStr l, List.mem_map_of_mem _ hl, by simp [hnone]⟩
    simp only [to_numeric_safe, hall, Bool.false_eq_true, if_false]
  · intro ls vs heq v hv
    simp only [to_numeric_safe] at heq
    rcases hall : (ls.map cleanNumStr).all (fun l => (parseNum? l).isSome) with _ | _
    · rw [hall] at heq
      simp only [Bool.false_eq_true, if_false] at heq
      exact absurd heq (by simp)
    · rw [hall] at heq
      simp only [if_true, Col.nums.injEq] at heq
      subst heq
      rcases List.mem_map.mp hv with ⟨l, hl, rfl⟩
      exact (List.all_eq_true.mp hall) l hl

/-- Claim C2 witness: for the hypotheses of `to_numeric_safe_spec`: a fully
parsing column becomes numeric, a failing column is returned as strings,
and the parsed cell of a numeric result is non-missing. -/
theorem to_numeric_safe_spec_witness :
    to_numeric_safe (Col.strs [nm "7"]) =
      Col.nums ([nm "7"].map (fun l => parseNum? (cleanNumStr l))) ∧
    to_numeric_safe (Col.strs [nm "x7"]) = Col.strs ([nm "x7"].map cleanNumStr) ∧
    (some (7 : ℚ)).isSome = true :=
  ⟨to_numeric_safe_spec.2.1 [nm "7"] (by decide),
   to_numeric_safe_spec.2.2.1 [nm "x7"] (nm "x7") (by decide) (by decide),
   to_numeric_safe_spec.2.2.2 [nm "7"] [some 7] (by decide) (some 7) (by decide)⟩

/-! ### C6: outlier advisory without filtering -/

set_option maxHeartbeats 1600000 in
/-- Claim C6: Loading the variation table reports (as an advisory message) the
presence of any value with absolute value > 0.5, and never filters or clamps
a row: the output table carries exactly the input rows, with the advisory
appended iff some |v| > 1/2.  In particular a column containing 0.6 sets the
advisory, a column with maximum absolute value 0.3 does not, and in both
cases every row is returned unchanged. -/
theorem load_variation_outlier_advisory :
    (∀ (ds : List (Option Nat)) (vs : List (Option ℚ)),
      load_variation [(nm "date", Col.dates ds), (nm "variation_pct", Col.nums vs)] =
        Except.ok ([(nm "date", Col.dates ds), (nm "variation_pct", Col.nums vs)],
          if vs.any (fun o => o.elim false (fun q => mkRat 1 2 < ratAbs q))
          then [outlierMsg] else [])) ∧
    load_variation [(nm "date", Col.dates [some 1, some 2]),
        (nm "variation_pct", Col.nums [some (mkRat 1 10), some (mkRat 6 10)])] =
      Except.ok ([(nm "date", Col.dates [some 1, some 2]),
        (nm "variation_pct", Col.nums [some (mkRat 1 10), some (mkRat 6 10)])],
        [outlierMsg]) ∧
    load_variation [(nm "date", Col.dates [some 1, some 2]),
        (nm "variation_pct", Col.nums [some (mkRat 3 10), some (mkRat (-3) 10)])] =
      Except.ok ([(nm "date", Col.dates [some 1, some 2]),
        (nm "variation_pct", Col.nums [some (mkRat 3 10), some (mkRat (-3) 10)])],
        []) := by
  refine ⟨fun ds vs => rfl, by decide, by decide⟩

/-! ### C3: column resolution -/

theorem contains_iff_mem (l : List Name) (a : Name) :
    l.contains a = true ↔ a ∈ l := by
  rw [List.contains_iff_exists_mem_beq]
  simp

/-- Claim C3: `find_column` returns the first candidate (in candidate order)
that exact-matches a column after normalization; only when no candidate
matches exactly does it return the first column (in table order) whose name
contains some normalized candidate as a substring; when neither exists it
returns `none`.  In particular candidates `["close", "cours"]` against
columns `["prix_cloture", "cours"]` resolve to `"cours"`. -/
theorem find_column_spec :
    (∀ (t : Table) (pre post : List Name) (c : Name),
      (∀ c2 ∈ pre, ¬ normalize_name c2 ∈ colNames t) →
      normalize_name c ∈ colNames t →
      find_column t (pre ++ c :: post) = some (normalize_name c)) ∧
    (∀ (t : Table) (candidates npre : List Name) (ncol : Name) (npost : List Name),
      (∀ c2 ∈ candidates, ¬ normalize_name c2 ∈ colNames t) →
      colNames t = npre ++ ncol :: npost →
      (∀ n2 ∈ npre, ∀ c2 ∈ candidates, ¬ isSubstr (normalize_name c2) n2 = true) →
      (∃ c2 ∈ candidates, isSubstr (normalize_name c2) ncol = true) →
      find_column t candidates = some ncol) ∧
    (∀ (t : Table) (candidates : List Name),
      (∀ c2 ∈ candidates, ¬ normalize_name c2 ∈ colNames t) →
      (∀ n2 ∈ colNames t, ∀ c2 ∈ candidates, ¬ isSubstr (normalize_name c2) n2 = true) →
      find_column t candidates = none) ∧
    find_column [(nm "prix_cloture", Col.nums []), (nm "cours", Col.nums [])]
      [nm "close", nm "cours"] = some (nm "cours") := by
  have hnone : ∀ (t : Table) (cands : List Name),
      (∀ c2 ∈ cands, ¬ normalize_name c2 ∈ colNames t) →
      cands.find? (fun c => (colNames t).contains (normalize_name c)) = none := by
    intro t cands h
    rw [List.find?_eq_none]
    intro x hx
    simp only [Bool.not_eq_true]
    rw [← Bool.not_eq_true, contains_iff_mem]
    exact h x hx
  refine ⟨?_, ?_, ?_, by decide⟩
  · intro t pre post c hpre hc
    unfold find_column
    rw [List.find?_append, hnone t pre hpre, Option.none_or,
      List.find?_cons_of_pos _ (by rw [contains_iff_mem]; exact hc)]
  · intro t candidates npre ncol npost hexact hcols hpre hsub
    unfold find_column
    rw [hnone t candidates hexact, hcols, List.find?_append]
    have h1 : npre.find? (fun ncol2 =>
        candidates.any (fun c => isSubstr (normalize_name c) ncol2)) = none := by
      rw [List.find?_eq_none]
      intro x hx
      simp only [Bool.not_eq_true, List.any_eq_false]
      intro c2 hc2
      simpa using hpre x hx c2 hc2
    rw [h1, Option.none_or, List.find?_cons_of_pos _ (by
      rw [List.any_eq_true]
      rcases hsub with ⟨c2, hc2, hb⟩
      exact ⟨c2, hc2, hb⟩)]
  · intro t candidates hexact hsubnone
    unfold find_column
    rw [hnone t candidates hexact]
    rw [List.find?_eq_none]
    intro x hx
    simp only [Bool.not_eq_true, List.any_eq_false]
    intro c2 hc2
    simpa using hsubnone x hx c2 hc2

/-- Claim C3 witness:: exact match beats substring (`"cours"`), substring
fallback picks the first containing column, and resolution fails to `none`
when neither applies. -/
theorem find_column_spec_witness :
    find_column [(nm "prix_cloture", Col.nums []), (nm "cours", Col.nums [])]
      ([nm "close"] ++ nm "cours" :: []) = some (normalize_name (nm "cours")) ∧
    find_column [(nm "prix_cloture", Col.nums []), (nm "cours_xyz", Col.nums [])]
      [nm "close", nm "cours"] = some (nm "cours_xyz") ∧
    find_column [(nm "a", Col.nums [])] [nm "close"] = none :=
  ⟨find_column_spec.1 _ [nm "close"] [] (nm "cours") (by decide) (by decide),
   find_column_spec.2.1 _ [nm "close", nm "cours"] [nm "prix_cloture"]
     (nm "cours_xyz") [] (by decide) (by decide) (by decide)
     ⟨nm "cours", by decide, by decide⟩,
   find_column_spec.2.2.1 _ [nm "close"] (by decide) (by decide)⟩

/-! ### C7: required vs optional columns -/

/-- The load raised, and its message names `col`. -/
def errNaming (e : Except Name (Table × List Name)) (col : Name) : Prop :=
  match e with
  | Except.error m => isSubstr col m = true
  | Except.ok _ => False

def isOkB (e : Except Name (Table × List Name)) : Bool :=
  match e with
  | Except.ok _ => true
  | Except.error _ => false

/-- The column labels of a successful load (`[]` on error). -/
def okCols (e : Except Name (Table × List Name)) : List Name :=
  match e with
  | Except.ok p => colNames p.1
  | Except.error _ => []

/-- Claim C7: After resolution, a missing required column makes the loader
raise with a message naming the missing logical column: `date` /
`variation_pct` for the variation table, `date` / `close` / `mm50` / `mm200`
for the moving-average table, and `date` / `close` (both named in the fixed
message) for the RSI table.  When the required RSI columns resolve, the load
succeeds, and each optional horizon column (`court`, `moyen`, `long_terme`)
appears in the result exactly when it resolved — its absence does not
raise. -/
theorem loaders_required_columns (t : Table) :
    (resolve_date (normalize_types (normalize_columns t)) = none →
      errNaming (load_variation t) (nm "date")) ∧
    (find_column (normalize_types (normalize_columns t)) varCandidates = none →
      errNaming (load_variation t) (nm "variation_pct")) ∧
    (resolve_date (normalize_types (normalize_columns t)) = none →
      errNaming (load_mm t) (nm "date")) ∧
    (find_column (normalize_types (normalize_columns t)) closeCandidates = none →
      errNaming (load_mm t) (nm "close")) ∧
    (find_column (normalize_types (normalize_columns t)) mm50Candidates = none →
      errNaming (load_mm t) (nm "mm50")) ∧
    (find_column (normalize_types (normalize_columns t)) mm200Candidates = none →
      errNaming (load_mm t) (nm "mm200")) ∧
    ((resolve_date (normalize_types (normalize_columns t)) = none ∨
      find_column (normalize_types (normalize_columns t)) closeCandidates = none) →
      load_rsi t = Except.error rsiErrMsg ∧
      isSubstr (nm "date") rsiErrMsg = true ∧
      isSubstr (nm "close") rsiErrMsg = true) ∧
    ((resolve_date (normalize_types (normalize_columns t))).isSome = true →
      (find_column (normalize_types (normalize_columns t)) closeCandidates).isSome = true →
      isOkB (load_rsi t) = true ∧
      ((find_column (normalize_types (normalize_columns t)) courtCandidates).isSome = false →
        ¬ nm "court" ∈ okCols (load_rsi t)) ∧
      ((find_column (normalize_types (normalize_columns t)) courtCandidates).isSome = true →
        nm "court" ∈ okCols (load_rsi t)) ∧
      ((find_column (normalize_types (normalize_columns t)) moyenCandidates).isSome = false →
        ¬ nm "moyen" ∈ okCols (load_rsi t)) ∧
      ((find_column (normalize_types (normalize_columns t)) moyenCandidates).isSome = true →
        nm "moyen" ∈ okCols (load_rsi t)) ∧
      ((find_column (normalize_types (normalize_columns t)) longCandidates).isSome = false →
        ¬ nm "long_terme" ∈ okCols (load_rsi t)) ∧
      ((find_column (normalize_types (normalize_columns t)) longCandidates).isSome = true →
        nm "long_terme" ∈ okCols (load_rsi t))) := by
  refine ⟨?_, ?_, ?_, ?_, ?_, ?_, ?_, ?_⟩
  · intro h
    rcases hv : find_column (normalize_types (normalize_columns t)) varCandidates
        with _ | cv <;>
      simp [load_variation, h, hv, errNaming, missingMsg] <;> decide
  · intro h
    rcases hd : resolve_date (normalize_types (normalize_columns t)) with _ | cd <;>
      simp [load_variation, h, hd, errNaming, missingMsg] <;> decide
  · intro h
    rcases hc : find_column (normalize_types (normalize_columns t)) closeCandidates
        with _ | cc <;>
    rcases h50 : find_column (normalize_types (normalize_columns t)) mm50Candidates
        with _ | c50 <;>
    rcases h200 : find_column (normalize_types (normalize_columns t)) mm200Candidates
        with _ | c200 <;>
      simp [load_mm, h, hc, h50, h200, errNaming, missingMsg] <;> decide
  · intro h
    rcases hd : resolve_date (normalize_types (normalize_columns t)) with _ | cd <;>
    rcases h50 : find_column (normalize_types (normalize_columns t)) mm50Candidates
        with _ | c50 <;>
    rcases h200 : find_column (normalize_types (normalize_columns t)) mm200Candidates
        with _ | c200 <;>
      simp [load_mm, h, hd, h50, h200, errNaming, missingMsg] <;> decide
  · intro h
    rcases hd : resolve_date (normalize_types (normalize_columns t)) with _ | cd <;>
    rcases hc : find_column (normalize_types (normalize_columns t)) closeCandidates
        with _ | cc <;>
    rcases h200 : find_column (normalize_types (normalize_columns t)) mm200Candidates
        with _ | c200 <;>
      simp [load_mm, h, hd, hc, h200, errNaming, missingMsg] <;> decide
  · intro h
    rcases hd : resolve_date (normalize_types (normalize_columns t)) with _ | cd <;>
    rcases hc : find_column (normalize_types (normalize_columns t)) closeCandidates
        with _ | cc <;>
    rcases h50 : find_column (normalize_types (normalize_columns t)) mm50Candidates
        with _ | c50 <;>
      simp [load_mm, h, hd, hc, h50, errNaming, missingMsg] <;> decide
  · intro h
    rcases h with h | h
    · rcases hc : find_column (normalize_types (normalize_columns t)) closeCandidates
          with _ | cc <;>
        exact ⟨by simp [load_rsi, h, hc], by decide, by decide⟩
    · rcases hd : resolve_date (normalize_types (normalize_columns t)) with _ | cd <;>
        exact ⟨by simp [load_rsi, h, hd], by decide, by decide⟩
  · intro h1 h2
    rcases hd : resolve_date (normalize_types (normalize_columns t)) with _ | cd
    · rw [hd] at h1; simp at h1
    rcases hc : find_column (normalize_types (normalize_columns t)) closeCandidates
        with _ | cc
    · rw [hc] at h2; simp at h2
    rcases hcourt : find_column (normalize_types (normalize_columns t)) courtCandidates
        with _ | cx <;>
    rcases hmoyen : find_column (normalize_types (normalize_columns t)) moyenCandidates
        with _ | mx <;>
    rcases hlong : find_column (normalize_types (normalize_columns t)) longCandidates
        with _ | lx <;>
      refine ⟨by simp [load_rsi, hd, hc, hcourt, hmoyen, hlong, isOkB],
        ?_, ?_, ?_, ?_, ?_, ?_⟩ <;>
      simp [load_rsi, hd, hc, hcourt, hmoyen, hlong, okCols, colNames] <;>
      decide

/-- Claim C7 witness:: a table with no recognizable columns makes each loader
raise naming the missing columns, and a minimal RSI table with only a
`court` horizon loads successfully with that horizon present. -/
theorem loaders_required_columns_witness :
    errNaming (load_variation [(nm "x", Col.nums [])]) (nm "date") ∧
    errNaming (load_variation [(nm "x", Col.nums [])]) (nm "variation_pct") ∧
    errNaming (load_mm [(nm "x", Col.nums [])]) (nm "mm50") ∧
    (load_rsi [(nm "x", Col.nums [])] = Except.error rsiErrMsg ∧
      isSubstr (nm "date") rsiErrMsg = true ∧
      isSubstr (nm "close") rsiErrMsg = true) ∧
    isOkB (load_rsi [(nm "date", Col.dates [some 1]),
      (nm "close", Col.nums [some 1]), (nm "court", Col.nums [some 2])]) = true ∧
    nm "court" ∈ okCols (load_rsi [(nm "date", Col.dates [some 1]),
      (nm "close", Col.nums [some 1]), (nm "court", Col.nums [some 2])]) ∧
    ¬ nm "moyen" ∈ okCols (load_rsi [(nm "date", Col.dates [some 1]),
      (nm "close", Col.nums [some 1]), (nm "court", Col.nums [some 2])]) :=
  ⟨(loaders_required_columns _).1 (by decide),
   (loaders_required_columns _).2.1 (by decide),
   (loaders_required_columns _).2.2.2.2.1 (by decide),
   (loaders_required_columns _).2.2.2.2.2.2.1 (Or.inl (by decide)),
   ((loaders_required_columns _).2.2.2.2.2.2.2 (by decide) (by decide)).1,
   ((loaders_required_columns _).2.2.2.2.2.2.2 (by decide) (by decide)).2.2.1
     (by decide),
   ((loaders_required_columns _).2.2.2.2.2.2.2 (by decide) (by decide)).2.2.2.1
     (by decide)⟩

/-! ### C8: insight summaries (source lines 171-182)

`insight_rsi` builds its one-line summary with the f-string

  `f"... Court {rc:.2f if rc is not None else float('nan')}: {zone(rc)}, ..."`

In an f-string everything after the `:` of a replacement field is the
*format spec*, taken literally; the conditional expression is never
evaluated.  So `format(rc, ".2f if rc is not None else float('nan')")` is
called, which raises `ValueError: Invalid format specifier` for a float
(and `TypeError` for `None`) — the function can never return a string. -/

def natToName (n : Nat) : Name := Nat.toDigits 10 n

def pad2 (n : Nat) : Name := if n < 10 then '0' :: natToName n else natToName n

/-- Rendering of `last_date.date()`: rendering of a day code (ISO). -/
def dateStr (n : Nat) : Name :=
  natToName (n / 10000) ++ ['-'] ++ pad2 (n / 100 % 100) ++ ['-'] ++ pad2 (n % 100)

/-- Model of `format(x, ".2f")` for a rational: round to 2 decimal places (ties
rounded up; the float path of CPython rounds half-even, unreachable in the
theorems below) and print with exactly two decimals. -/
def fixed2 (q : ℚ) : Name :=
  let num2 : ℤ := q.num * 100
  let den : ℤ := (q.den : ℤ)
  let quot : ℤ := Int.fdiv num2 den
  let c : ℤ := if den ≤ 2 * (num2 - quot * den) then quot + 1 else quot
  (if c < 0 then ['-'] else []) ++
    natToName (c.natAbs / 100) ++ ['.'] ++ pad2 (c.natAbs % 100)

/-- A `str(float)`-style display (only the shape matters: it is returned by
the empty format spec, which the buggy call sites never use). -/
def ratStr (q : ℚ) : Name :=
  (if q.num < 0 then ['-'] else []) ++ natToName q.num.natAbs ++
    (if q.den = 1 then nm ".0" else ['/'] ++ natToName q.den)

/-- ASCII apostrophe (U+0027). -/
def apos : Char := Char.ofNat 39

/-- The literal format spec of the `Court`/`Moyen`/`Long` fields:
`.2f if rc is not None else float('nan')`. -/
def badRsiSpec : Name :=
  nm ".2f if rc is not None else float(" ++ [apos] ++ nm "nan" ++ [apos] ++ nm ")"

def invalidFormatMsg : Name := nm "Invalid format specifier"

def noneFormatMsg : Name :=
  nm "unsupported format string passed to NoneType.__format__"

/-- Model of `format(v, spec)` for an optional float: the empty spec and `.2f` are
the specs the call sites could legitimately want; any other spec raises
(`ValueError` on a float, `TypeError` on `None`). -/
def pyFormatOptRat (v : Option ℚ) (spec : Name) : Except Name Name :=
  match v with
  | some q =>
    if spec = nm ".2f" then Except.ok (fixed2 q)
    else if spec = [] then Except.ok (ratStr q)
    else Except.error invalidFormatMsg
  | none =>
    if spec = [] then Except.ok (nm "None")
    else Except.error noneFormatMsg

/-- Function `last_non_nan`: `s.dropna().iloc[-1]`, `None` when empty. -/
def last_non_nan (vs : List (Option ℚ)) : Option ℚ := (vs.filterMap id).getLast?

def getNums (c : Col) : List (Option ℚ) :=
  match c with
  | Col.nums vs => vs
  | _ => []

def getDates (c : Col) : List (Option Nat) :=
  match c with
  | Col.dates vs => vs
  | _ => []

/-- Function `zone`: `None`/NaN → `n.d.`; ≥ 70 → surachat; ≤ 30 → survente;
else neutre. -/
def zone (v : Option ℚ) : Name :=
  match v with
  | none => nm "n.d."
  | some q =>
    if 70 ≤ q then nm "surachat"
    else if q ≤ 30 then nm "survente"
    else nm "neutre"

/-- Function `insight_rsi`: the fields of the f-string are evaluated left to right;
the date field uses the empty format spec, the three RSI fields use
`badRsiSpec`. -/
def insight_rsi (df : Table) : Except Name Name :=
  let lastDate := (getDates (getCol df (nm "date"))).filterMap id |>.max?
  let rc := last_non_nan (getNums (getCol df (nm "court")))
  let rm := last_non_nan (getNums (getCol df (nm "moyen")))
  let rl := last_non_nan (getNums (getCol df (nm "long_terme")))
  let f1 : Name :=
    match lastDate with
    | some d => dateStr d
    | none => nm "n.d."
  match pyFormatOptRat rc badRsiSpec with
  | Except.error e => Except.error e
  | Except.ok s2 =>
    match pyFormatOptRat rm badRsiSpec, pyFormatOptRat rl badRsiSpec with
    | Except.ok s3, Except.ok s4 =>
      Except.ok (nm "Dernier point " ++ f1 ++ nm " — Court " ++ s2 ++ nm ": " ++
        zone rc ++ nm ", Moyen " ++ s3 ++ nm ": " ++ zone rm ++ nm ", Long " ++
        s4 ++ nm ": " ++ zone rl ++ nm ".")
    | Except.error e, _ => Except.error e
    | _, Except.error e => Except.error e

theorem pyFormatOptRat_bad (v : Option ℚ) :
    pyFormatOptRat v badRsiSpec = Except.error invalidFormatMsg ∨
    pyFormatOptRat v badRsiSpec = Except.error noneFormatMsg := by
  rcases v with _ | q
  · right
    simp only [pyFormatOptRat]
    rw [if_neg (by decide)]
  · left
    simp only [pyFormatOptRat]
    rw [if_neg (by decide), if_neg (by decide)]

/-- Claim C8: `insight_rsi` never returns a summary string: the invalid format
spec `".2f if rc is not None else float('nan')"` makes every call raise
(`ValueError: Invalid format specifier` when the last `court` value exists,
the `NoneType.__format__` `TypeError` otherwise) — in particular on a
healthy RSI table with last court value 50.  The intended classification
(≥ 70 surachat, ≤ 30 survente, else neutre, `n.d.` for missing) lives in
`zone`, which the exception prevents from ever being rendered. -/
theorem insight_rsi_always_raises :
    (∀ df : Table, insight_rsi df = Except.error invalidFormatMsg ∨
      insight_rsi df = Except.error noneFormatMsg) ∧
    insight_rsi [(nm "date", Col.dates [some 20240101]),
      (nm "close", Col.nums [some 100]), (nm "court", Col.nums [some 50])] =
      Except.error invalidFormatMsg ∧
    zone (some 75) = nm "surachat" ∧ zone (some 25) = nm "survente" ∧
    zone (some 50) = nm "neutre" ∧ zone none = nm "n.d." := by
  refine ⟨?_, by decide, by decide, by decide, by decide, by decide⟩
  intro df
  simp only [insight_rsi]
  rcases pyFormatOptRat_bad (last_non_nan (getNums (getCol df (nm "court"))))
      with h | h <;> rw [h]
  · left; rfl
  · right; rfl

/-! ### C9: loaders do not mutate their input

The pandas aliasing behaviour is made explicit in a store model: a
reference (a `Nat`) is an index into a store of dataframes, `df.copy()` allocates a fresh entry,
and every in-place pandas operation (`d.columns = ...`, `d[c] = ...`,
`out["court"] = ...`) becomes a `setDf` on the reference it targets.  A
loader then maps a store and the reference of the raw dataframe to a final
store plus the reference of its result. -/

abbrev Store := List Table

def getDf (σ : Store) (r : Nat) : Table := σ.getD r []

def alloc (σ : Store) (t : Table) : Store × Nat := (σ ++ [t], σ.length)

def setDf (σ : Store) (r : Nat) (t : Table) : Store := σ.set r t

/-- The `d = df.copy(); <mutate d in place with f>` pattern shared by
`normalize_columns` and `normalize_types`. -/
def copy_update_st (f : Table → Table) (σ : Store) (r : Nat) : Store × Nat :=
  let a := alloc σ (getDf σ r)
  (setDf a.1 a.2 (f (getDf a.1 a.2)), a.2)

def normalize_columns_st : Store → Nat → Store × Nat :=
  copy_update_st normalize_columns

def normalize_types_st : Store → Nat → Store × Nat :=
  copy_update_st normalize_types

/-- Model of `if c: out[label] = d[c]` — in-place column append on `out`. -/
def addOptCol_st (σ : Store) (ro : Nat) (label : Name) (c : Option Name)
    (d : Table) : Store :=
  match c with
  | some cx => setDf σ ro (getDf σ ro ++ [(label, getCol d cx)])
  | none => σ

def okRef? (e : Except Name (Nat × List Name)) : Option Nat :=
  match e with
  | Except.ok p => some p.1
  | Except.error _ => none

def load_variation_st (σ : Store) (r : Nat) :
    Store × Except Name (Nat × List Name) :=
  let s1 := normalize_columns_st σ r
  let s2 := normalize_types_st s1.1 s1.2
  let d := getDf s2.1 s2.2
  match resolve_date d, find_column d varCandidates with
  | some cd, some cv =>
    let out := [(nm "date", getCol d cd), (nm "variation_pct", getCol d cv)]
    let a := alloc s2.1 out
    (a.1, match outlierCheck (getCol out (nm "variation_pct")) with
          | Except.error e => Except.error e
          | Except.ok b => Except.ok (a.2, if b then [outlierMsg] else []))
  | cd, cv =>
    (s2.1, Except.error (missingMsg
      ((if cd.isNone then [nm "date"] else []) ++
       (if cv.isNone then [nm "variation_pct"] else []))))

def load_mm_st (σ : Store) (r : Nat) :
    Store × Except Name (Nat × List Name) :=
  let s1 := normalize_columns_st σ r
  let s2 := normalize_types_st s1.1 s1.2
  let d := getDf s2.1 s2.2
  match resolve_date d, find_column d closeCandidates,
      find_column d mm50Candidates, find_column d mm200Candidates with
  | some cd, some cc, some c50, some c200 =>
    let a := alloc s2.1 [(nm "date", getCol d cd), (nm "close", getCol d cc),
      (nm "mm50", getCol d c50), (nm "mm200", getCol d c200)]
    (a.1, Except.ok (a.2, []))
  | cd, cc, c50, c200 =>
    (s2.1, Except.error (missingMsg
      ((if cd.isNone then [nm "date"] else []) ++
       (if cc.isNone then [nm "close"] else []) ++
       (if c50.isNone then [nm "mm50"] else []) ++
       (if c200.isNone then [nm "mm200"] else []))))

def load_rsi_st (σ : Store) (r : Nat) :
    Store × Except Name (Nat × List Name) :=
  let s1 := normalize_columns_st σ r
  let s2 := normalize_types_st s1.1 s1.2
  let d := getDf s2.1 s2.2
  match resolve_date d, find_column d closeCandidates with
  | some cd, some cc =>
    let a := alloc s2.1 [(nm "date", getCol d cd), (nm "close", getCol d cc)]
    let σ4 := addOptCol_st a.1 a.2 (nm "court") (find_column d courtCandidates) d
    let σ5 := addOptCol_st σ4 a.2 (nm "moyen") (find_column d moyenCandidates) d
    let σ6 := addOptCol_st σ5 a.2 (nm "long_terme") (find_column d longCandidates) d
    (σ6, Except.ok (a.2, []))
  | _, _ => (s2.1, Except.error rsiErrMsg)

theorem getDf_alloc {σ : Store} {t : Table} {r : Nat} (h : r < σ.length) :
    getDf (alloc σ t).1 r = getDf σ r := by
  simp [getDf, alloc, List.getD, List.getElem?_append, h]

theorem getDf_set_ne {σ : Store} {i r : Nat} {t : Table} (h : r ≠ i) :
    getDf (setDf σ i t) r = getDf σ r := by
  simp [getDf, setDf, List.getD, List.getElem?_set_ne (Ne.symm h)]

theorem copy_update_frame (f : Table → Table) (σ : Store) (r r2 : Nat)
    (h : r2 < σ.length) :
    getDf (copy_update_st f σ r).1 r2 = getDf σ r2 ∧
    (copy_update_st f σ r).1.length = σ.length + 1 ∧
    (copy_update_st f σ r).2 = σ.length := by
  refine ⟨?_, by simp [copy_update_st, alloc, setDf], by simp [copy_update_st, alloc]⟩
  show getDf (setDf (alloc σ (getDf σ r)).1 σ.length _) r2 = getDf σ r2
  have hne : r2 ≠ σ.length := by omega
  rw [getDf_set_ne hne, getDf_alloc h]

theorem addOptCol_frame (σ : Store) (ro : Nat) (label : Name)
    (c : Option Name) (d : Table) (r2 : Nat) (h : r2 ≠ ro) :
    getDf (addOptCol_st σ ro label c d) r2 = getDf σ r2 ∧
    (addOptCol_st σ ro label c d).length = σ.length := by
  rcases c with _ | cx
  · exact ⟨rfl, rfl⟩
  · exact ⟨getDf_set_ne h, by simp [addOptCol_st, setDf]⟩

/-- Claim C9: No loader mutates its input dataframe: for every store and every
valid reference to a raw dataframe, the dataframe behind that reference
(its column names, values and row count — the whole table value) is the
same after running any of the three loaders, and on success the returned
reference is a freshly allocated one (`σ.length ≤ ro`, so in particular
distinct from every pre-existing reference, including the input). -/
theorem loaders_no_mutation (σ : Store) (r : Nat) (h : r < σ.length) :
    (getDf (load_variation_st σ r).1 r = getDf σ r ∧
     (okRef? (load_variation_st σ r).2).all
       (fun ro => decide (σ.length ≤ ro)) = true) ∧
    (getDf (load_mm_st σ r).1 r = getDf σ r ∧
     (okRef? (load_mm_st σ r).2).all
       (fun ro => decide (σ.length ≤ ro)) = true) ∧
    (getDf (load_rsi_st σ r).1 r = getDf σ r ∧
     (okRef? (load_rsi_st σ r).2).all
       (fun ro => decide (σ.length ≤ ro)) = true) := by
  obtain ⟨f1, l1, _⟩ := copy_update_frame normalize_columns σ r r h
  obtain ⟨f2, l2, _⟩ := copy_update_frame normalize_types
    (normalize_columns_st σ r).1 (normalize_columns_st σ r).2 r
    (by rw [show (normalize_columns_st σ r).1.length = σ.length + 1 from l1]; omega)
  rw [show normalize_columns_st σ r = copy_update_st normalize_columns σ r from rfl]
    at f2 l2
  refine ⟨?_, ?_, ?_⟩
  · simp only [load_variation_st, normalize_columns_st, normalize_types_st]
    split
    · rename_i cd cv heq
      constructor
      · rw [getDf_alloc (by omega), f2, f1]
      · split <;> simp [okRef?, alloc]
        all_goals omega
    · exact ⟨by rw [f2, f1], by simp [okRef?]⟩
  · simp only [load_mm_st, normalize_columns_st, normalize_types_st]
    split
    · rename_i cd cc c50 c200 heq
      exact ⟨by rw [getDf_alloc (by omega), f2, f1], by simp [okRef?, alloc]; omega⟩
    · exact ⟨by rw [f2, f1], by simp [okRef?]⟩
  · simp only [load_rsi_st, normalize_columns_st, normalize_types_st]
    split
    · rename_i cd cc heq
      constructor
      · obtain ⟨g1, m1⟩ := addOptCol_frame
          (alloc (copy_update_st normalize_types (copy_update_st normalize_columns σ r).1
            (copy_update_st normalize_columns σ r).2).1 _).1
          (alloc (copy_update_st normalize_types (copy_update_st normalize_columns σ r).1
            (copy_update_st normalize_columns σ r).2).1 _).2
          (nm "court") _ _ r (by simp [alloc]; omega)
        rw [addOptCol_frame _ _ _ _ _ r (by simp [alloc]; omega) |>.1,
          addOptCol_frame _ _ _ _ _ r (by simp [alloc]; omega) |>.1,
          g1, getDf_alloc (by omega), f2, f1]
      · simp [okRef?, alloc]
        omega
    · exact ⟨by rw [f2, f1], by simp [okRef?]⟩

/-- Claim C9 witness:: a concrete one-dataframe store. -/
theorem loaders_no_mutation_witness :
    (0 : Nat) < ([[(nm "x", Col.nums [])]] : Store).length ∧
    getDf (load_variation_st [[(nm "x", Col.nums [])]] 0).1 0 =
      getDf [[(nm "x", Col.nums [])]] 0 ∧
    getDf (load_rsi_st [[(nm "x", Col.nums [])]] 0).1 0 =
      getDf [[(nm "x", Col.nums [])]] 0 :=
  ⟨by decide,
   (loaders_no_mutation [[(nm "x", Col.nums [])]] 0 (by decide)).1.1,
   (loaders_no_mutation [[(nm "x", Col.nums [])]] 0 (by decide)).2.2.1⟩

/-! ### C10: `extract_spreadsheet_id` (source lines 28-33)

`re.search(r"/d/([a-zA-Z0-9-_]+)/", url)` scans for the leftmost position
where `/d/` is followed by a non-empty maximal run of id-characters and then
a `/`; since `/` is not an id-character, greedy matching with backtracking
accepts exactly when the character after the maximal run is `/`. -/

/-- The class `[a-zA-Z0-9-_]`. -/
def idChar (c : Char) : Bool :=
  (65 ≤ c.toNat && c.toNat ≤ 90) || (97 ≤ c.toNat && c.toNat ≤ 122) ||
  (48 ≤ c.toNat && c.toNat ≤ 57) || c = '-' || c = '_'

/-- Try the regex at the current position. -/
def dMatch? (l : Name) : Option Name :=
  match l with
  | '/' :: 'd' :: '/' :: rest =>
    let run := rest.takeWhile idChar
    if !run.isEmpty && ((rest.dropWhile idChar).head? == some '/') then some run
    else none
  | _ => none

/-- Model of `re.search`: try each position left to right. -/
def reSearchD : Name → Option Name
  | [] => none
  | c :: cs =>
    match dMatch? (c :: cs) with
    | some r => some r
    | none => reSearchD cs

/-- Function `extract_spreadsheet_id`: the captured group when the regex matches,
else the stripped input. -/
def extract_spreadsheet_id (l : Name) : Name :=
  match reSearchD l with
  | some r => r
  | none => pyStrip l

/-- A `/d/<id>/` segment with identifier `i` and arbitrary remainder. -/
def dSeg (i suf : Name) : Name := '/' :: 'd' :: '/' :: (i ++ '/' :: suf)

/-- The string begins with a `/d/<id>/` segment (spec-side notion). -/
def IsDSeg (t : Name) : Prop :=
  ∃ i suf, t = dSeg i suf ∧ i ≠ [] ∧ ∀ c ∈ i, idChar c = true

theorem takeWhile_append_cons {p : Char → Bool} {i : Name}
    (hall : ∀ c ∈ i, p c = true) {x : Char} (hx : p x = false) (s : Name) :
    (i ++ x :: s).takeWhile p = i := by
  induction i with
  | nil => simp [List.takeWhile_cons, hx]
  | cons a as ih =>
    rw [List.cons_append,
      List.takeWhile_cons_of_pos (hall a (List.mem_cons_self ..)),
      ih (fun c hc => hall c (List.mem_cons_of_mem _ hc))]

theorem dropWhile_append_cons {p : Char → Bool} {i : Name}
    (hall : ∀ c ∈ i, p c = true) {x : Char} (hx : p x = false) (s : Name) :
    (i ++ x :: s).dropWhile p = x :: s := by
  induction i with
  | nil => simp [List.dropWhile_cons, hx]
  | cons a as ih =>
    rw [List.cons_append,
      List.dropWhile_cons_of_pos (hall a (List.mem_cons_self ..)),
      ih (fun c hc => hall c (List.mem_cons_of_mem _ hc))]

theorem dMatch?_of_seg {i : Name} (suf : Name) (hne : i ≠ [])
    (hall : ∀ c ∈ i, idChar c = true) :
    dMatch? (dSeg i suf) = some i := by
  have hslash : idChar '/' = false := by decide
  simp only [dSeg, dMatch?, takeWhile_append_cons hall hslash,
    dropWhile_append_cons hall hslash]
  rw [if_pos]
  simp only [Bool.and_eq_true, Bool.not_eq_true, List.head?_cons]
  exact ⟨by simpa [List.isEmpty_iff] using hne, by simp⟩

theorem isDSeg_of_dMatch {t : Name} {r : Name} (h : dMatch? t = some r) :
    IsDSeg t := by
  unfold dMatch? at h
  split at h
  · rename_i rest
    dsimp only at h
    split at h
    · rename_i hcond
      simp only [Option.some.injEq] at h
      simp only [Bool.and_eq_true, Bool.not_eq_true, beq_iff_eq] at hcond
      rcases hdrop : rest.dropWhile idChar with _ | ⟨x, xs⟩
      · rw [hdrop] at hcond
        simp at hcond
      · rw [hdrop] at hcond
        simp only [List.head?_cons, Option.some.injEq] at hcond
        refine ⟨rest.takeWhile idChar, xs, ?_, ?_, ?_⟩
        · simp only [dSeg, List.cons.injEq, true_and]
          rw [← hcond.2, ← hdrop, List.takeWhile_append_dropWhile]
        · simpa [List.isEmpty_iff] using hcond.1
        · exact fun c hc => List.mem_takeWhile_imp hc
    · simp at h
  · simp at h

theorem isDSeg_iff (t : Name) : IsDSeg t ↔ (dMatch? t).isSome = true := by
  constructor
  · rintro ⟨i, suf, rfl, hne, hall⟩
    rw [dMatch?_of_seg suf hne hall]
    rfl
  · intro h
    rcases hm : dMatch? t with _ | r
    · rw [hm] at h
      simp at h
    · exact isDSeg_of_dMatch hm

theorem mem_tails_self (l : Name) : l ∈ l.tails := by
  rw [List.mem_tails]

theorem mem_tails_of_tail {t : Name} {c : Char} {cs : Name}
    (h : t ∈ cs.tails) : t ∈ (c :: cs).tails := by
  rw [List.mem_tails] at h ⊢
  exact h.trans (List.suffix_cons c cs)

theorem reSearchD_none {l : Name} (h : ∀ t ∈ l.tails, ¬ IsDSeg t) :
    reSearchD l = none := by
  induction l with
  | nil => rfl
  | cons c cs ih =>
    simp only [reSearchD]
    rcases hm : dMatch? (c :: cs) with _ | r
    · exact ih (fun t ht => h t (mem_tails_of_tail ht))
    · exact absurd (isDSeg_of_dMatch hm) (h _ (mem_tails_self _))

theorem reSearchD_of_seg :
    ∀ (pre i suf : Name), i ≠ [] → (∀ c ∈ i, idChar c = true) →
    (∀ t ∈ (pre ++ dSeg i suf).tails, (dSeg i suf).length < t.length → ¬ IsDSeg t) →
    reSearchD (pre ++ dSeg i suf) = some i := by
  intro pre
  induction pre with
  | nil =>
    intro i suf hne hall _
    rw [List.nil_append]
    show reSearchD ('/' :: 'd' :: '/' :: (i ++ '/' :: suf)) = some i
    simp only [reSearchD]
    rw [show ('/' :: 'd' :: '/' :: (i ++ '/' :: suf)) = dSeg i suf from rfl,
      dMatch?_of_seg suf hne hall]
  | cons p pre' ih =>
    intro i suf hne hall h
    rw [List.cons_append]
    simp only [reSearchD]
    rcases hm : dMatch? (p :: (pre' ++ dSeg i suf)) with _ | r
    · exact ih i suf hne hall
        (fun t ht hlen => h t (mem_tails_of_tail ht) hlen)
    · exfalso
      refine h (p :: (pre' ++ dSeg i suf)) (mem_tails_self _) ?_
        (isDSeg_of_dMatch hm)
      simp only [List.length_cons, List.length_append]
      omega

/-- Claim C10: `extract_spreadsheet_id` is total, and: (a) when no position of
the input starts a `/d/<id>/` segment (non-empty id of letters, digits,
hyphens, underscores), it returns the input stripped of surrounding
whitespace; (b) when the input decomposes as `pre ++ "/d/" ++ i ++ "/" ++
suf` with such an identifier `i`, and no strictly earlier position starts a
segment, it returns exactly that first identifier `i`. -/
theorem extract_spreadsheet_id_spec (s : Name) :
    ((∀ t ∈ s.tails, ¬ IsDSeg t) → extract_spreadsheet_id s = pyStrip s) ∧
    (∀ pre i suf, s = pre ++ dSeg i suf → i ≠ [] →
      (∀ c ∈ i, idChar c = true) →
      (∀ t ∈ s.tails, (dSeg i suf).length < t.length → ¬ IsDSeg t) →
      extract_spreadsheet_id s = i) := by
  constructor
  · intro h
    unfold extract_spreadsheet_id
    rw [reSearchD_none h]
  · intro pre i suf hs hne hall h
    subst hs
    unfold extract_spreadsheet_id
    rw [reSearchD_of_seg pre i suf hne hall h]

/-- Claim C10 witness:: a URL-shaped input yields the first bracketed id; an
input with no segment is returned stripped. -/
theorem extract_spreadsheet_id_spec_witness :
    extract_spreadsheet_id (nm "a/d/abc9-X_/edit") = nm "abc9-X_" ∧
    extract_spreadsheet_id (nm " raw id ") = nm "raw id" := by
  have hAll1 : ∀ t ∈ (nm "a/d/abc9-X_/edit").tails,
      (dSeg (nm "abc9-X_") (nm "edit")).length < t.length →
      (dMatch? t).isSome = false := by decide
  have hAll2 : ∀ t ∈ (nm " raw id ").tails, (dMatch? t).isSome = false := by
    decide
  constructor
  · refine (extract_spreadsheet_id_spec _).2 (nm "a") (nm "abc9-X_") (nm "edit")
      (by decide) (by decide) (by decide) ?_
    intro t ht hl hseg
    have h1 := (isDSeg_iff t).mp hseg
    rw [hAll1 t ht hl] at h1
    exact absurd h1 (by decide)
  · have h0 := (extract_spreadsheet_id_spec (nm " raw id ")).1 ?_
    · exact h0.trans (by decide)
    · intro t ht hseg
      have h1 := (isDSeg_iff t).mp hseg
      rw [hAll2 t ht] at h1
      exact absurd h1 (by decide)

end Graphique
